import Mathlib

/-!
Verification development for the HR-Resume-Ranker screening core: the
outcome classifier, the GitHub reputation scorer, GitHub link extraction
from free text, PDF link-annotation harvesting, and the TTL-cached
profile statistics fetcher.  All definitions are shallow embeddings of
the Python sources under src/backend (utils.py, main.py,
services/openai_service.py); comments name the embedded function and
line range.
-/

/-- Profile statistics record assembled by the GitHub stats fetchers
(src/backend/utils.py, fetch_github_stats and fetch_github_stats_async).
Count fields are naturals (GitHub API counts are non-negative); a null
bio/company/location/blog from the API is modelled as the empty string,
which has the same truthiness the Python code tests.  The empty dict
that signals unavailability is the none case of Option GithubStats at
use sites. -/
structure GithubStats where
  username : String
  public_repos : Nat
  followers : Nat
  following : Nat
  total_stars : Nat
  total_forks : Nat
  recent_activity : Nat
  profile_created : String
  bio : String
  company : String
  location : String
  blog : String
  deriving Repr, DecidableEq

/-- Exact rounding to one decimal place over the rationals (Mathlib
round is round-half-up), the idealized reading of the specification's
round-to-one-decimal step.  The program instead rounds the binary64
value of the accumulated score, which at decimal ties stored below
their exact value rounds the other way; that divergence is the C2
counterexample below. -/
def round1 (q : ℚ) : ℚ := ((round (10 * q) : ℤ) : ℚ) / 10

/-- Floor of the base-two logarithm of a natural number, by repeated
halving with a fuel argument instantiated above the bit length. -/
def natLog2A : Nat → Nat → Nat
  | 0, _ => 0
  | fuel + 1, n => if n < 2 then 0 else natLog2A fuel (n / 2) + 1

/-- Whether two to the given integer power is at most the fraction s/t,
decided with integer arithmetic only. -/
def pow2le (s t : Nat) (e : Int) : Bool :=
  if 0 ≤ e then decide (t * 2 ^ e.toNat ≤ s) else decide (t ≤ s * 2 ^ (-e).toNat)

/-- Floor of the base-two logarithm of the positive fraction s/t.  The
difference of the operand logarithms is off by at most one, and the
power comparison settles which. -/
def flog2 (s t : Nat) : Int :=
  if pow2le s t ((natLog2A (s + 2) s : Int) - (natLog2A (t + 2) t : Int)) then
    (natLog2A (s + 2) s : Int) - (natLog2A (t + 2) t : Int)
  else (natLog2A (s + 2) s : Int) - (natLog2A (t + 2) t : Int) - 1

/-- Round-to-nearest with ties to even of the fraction N/D, on natural
numbers; the exact remainder against half settles the direction. -/
def rheNat (N D : Nat) : Nat :=
  if 2 * (N % D) < D then N / D
  else if D < 2 * (N % D) then N / D + 1
  else if (N / D) % 2 = 0 then N / D else N / D + 1

/-- The rational m times two to the e, built with core rational
primitives. -/
def dyadicMul (m : Nat) (e : Int) : ℚ :=
  if 0 ≤ e then ((m * 2 ^ e.toNat : Nat) : ℚ)
  else Rat.divInt (m : Int) ((2 ^ (-e).toNat : Nat) : Int)

/-- Binary64 rounding of the positive fraction s/t: scale into the
53-bit mantissa window at exponent flog2 minus 52 and round to nearest,
ties to even.  Overflow and subnormal thresholds are far outside the
score range and are not modelled. -/
def flPos (s t : Nat) : ℚ :=
  dyadicMul
    (rheNat (if 0 ≤ flog2 s t - 52 then s else s * 2 ^ (-(flog2 s t - 52)).toNat)
            (if 0 ≤ flog2 s t - 52 then t * 2 ^ (flog2 s t - 52).toNat else t))
    (flog2 s t - 52)

/-- Rounding of an exact rational to the nearest IEEE-754 double
(round-to-nearest, ties to even), the value every CPython float
arithmetic operation stores. -/
def fl (q : ℚ) : ℚ := if q.num ≤ 0 then q else flPos q.num.toNat q.den

/-- Exact rational product via core primitives (the Batteries rational
multiplication is irreducible and does not evaluate in proofs). -/
def qmul (a b : ℚ) : ℚ := Rat.divInt (a.num * b.num) ((a.den : Int) * b.den)

/-- Exact rational sum via core primitives. -/
def qadd (a b : ℚ) : ℚ := Rat.divInt (a.num * b.den + b.num * a.den) ((a.den : Int) * b.den)

/-- Exact rational quotient via core primitives. -/
def qdiv (a b : ℚ) : ℚ := Rat.divInt (a.num * b.den) ((a.den : Int) * b.num)

/-- CPython float true division: the correctly rounded double of the
exact quotient. -/
def pyDiv (a b : ℚ) : ℚ := fl (qdiv a b)

/-- CPython float multiplication: the correctly rounded double of the
exact product. -/
def pyMul (a b : ℚ) : ℚ := fl (qmul a b)

/-- CPython float addition: the correctly rounded double of the exact
sum. -/
def pyAdd (a b : ℚ) : ℚ := fl (qadd a b)

/-- CPython round(x, 1) on a float: the stored double value is rounded
to the nearest tenth with ties to even on its exact value, and the
resulting decimal is stored back as the nearest double. -/
def pyRound1 (x : ℚ) : ℚ :=
  fl (Rat.divInt (rheNat (qmul 10 x).num.toNat (qmul 10 x).den) 10)

/-- Accumulated score of calculate_github_score up to and including the
round call (src/backend/utils.py lines 305-336), with every float
operation modelled by its correctly rounded binary64 result. -/
def githubRawScore (stats : GithubStats) : ℚ :=
  let score : ℚ := 0
  let repos := min stats.public_repos 50
  let score := pyAdd score (pyMul (pyDiv ((repos : Nat) : ℚ) 50) 20)
  let stars := min stats.total_stars 500
  let score := pyAdd score (pyMul (pyDiv ((stars : Nat) : ℚ) 500) 25)
  let followers := min stats.followers 100
  let score := pyAdd score (pyMul (pyDiv ((followers : Nat) : ℚ) 100) 15)
  let recent := min stats.recent_activity 20
  let score := pyAdd score (pyMul (pyDiv ((recent : Nat) : ℚ) 20) 20)
  let forks := min stats.total_forks 100
  let score := pyAdd score (pyMul (pyDiv ((forks : Nat) : ℚ) 100) 10)
  let completeness : Nat :=
    (if stats.bio ≠ "" then 2 else 0) + (if stats.company ≠ "" then 2 else 0) +
    (if stats.location ≠ "" then 2 else 0) + (if stats.blog ≠ "" then 2 else 0) +
    (if 0 < stats.public_repos then 2 else 0)
  let score := pyAdd score ((completeness : Nat) : ℚ)
  pyRound1 score

/-- Embedding of calculate_github_score (src/backend/utils.py lines
300-336): the float accumulation of the capped contributions in source
order, rounded to one decimal on the stored double and clamped with
min against one hundred. -/
def calculate_github_score : Option GithubStats → ℚ
  | none => 0
  | some stats => min (githubRawScore stats) 100

/-- Reputation score exactly as the C2 claim words it, in exact
rational arithmetic: the sum of the five capped signal rows plus the
completeness row, rounded to one decimal place and clamped to at most
100.  The code evaluates the same formula in binary64 floats, which
diverges from this at decimal ties (the C2 counterexample). -/
def spec_reputation_score (s : GithubStats) : ℚ :=
  min (round1 (((min s.public_repos 50 : Nat) : ℚ) / 50 * 20
      + ((min s.total_stars 500 : Nat) : ℚ) / 500 * 25
      + ((min s.followers 100 : Nat) : ℚ) / 100 * 15
      + ((min s.recent_activity 20 : Nat) : ℚ) / 20 * 20
      + ((min s.total_forks 100 : Nat) : ℚ) / 100 * 10
      + (((if s.bio ≠ "" then 2 else 0) + (if s.company ≠ "" then 2 else 0)
          + (if s.location ≠ "" then 2 else 0) + (if s.blog ≠ "" then 2 else 0)
          + (if 0 < s.public_repos then 2 else 0) : Nat) : ℚ))) 100

/-- Statistics record with every capped signal at its cap and all four
profile text fields non-empty; the all-caps-maxed example of the
specification. -/
def maxedStats : GithubStats :=
  { username := "x", public_repos := 50, followers := 100, following := 0,
    total_stars := 500, total_forks := 100, recent_activity := 20,
    profile_created := "", bio := "x", company := "x", location := "x", blog := "x" }

/-- Outcome grouping applied per resume by the analyze endpoint
(src/backend/main.py lines 466-482): a five-step priority chain over
yes-count, total criteria count and GitHub presence.  The Python
ceil(total_q / 2) over exact arithmetic equals (total_q + 1) / 2 in
natural division. -/
def classify (yes_count total_q : Nat) (require_github has_github : Bool) : String × String :=
  if require_github && !has_github then
    ("rejected", "Rejected: GitHub missing and GitHub is required.")
  else if yes_count = 0 then
    ("rejected", "Rejected: none of the criteria were met.")
  else if yes_count = total_q then
    ("strongly_consider", "Strongly consider: all criteria were met.")
  else if (total_q + 1) / 2 ≤ yes_count then
    ("potential_fit", "Potential fit: majority of criteria were met.")
  else
    ("rejected", "Rejected: fewer than half of the criteria were met.")

/-- Classifier exactly as the specification words it (section 4.5), with
the majority threshold written as the ceiling of total/2 taken over the
rationals. -/
def spec_classify (yes_count total_q : Nat) (require_github has_github : Bool) : String × String :=
  if require_github = true ∧ has_github = false then
    ("rejected", "Rejected: GitHub missing and GitHub is required.")
  else if yes_count = 0 then
    ("rejected", "Rejected: none of the criteria were met.")
  else if yes_count = total_q then
    ("strongly_consider", "Strongly consider: all criteria were met.")
  else if ⌈(total_q : ℚ) / 2⌉ ≤ (yes_count : ℤ) then
    ("potential_fit", "Potential fit: majority of criteria were met.")
  else
    ("rejected", "Rejected: fewer than half of the criteria were met.")

lemma ceil_half_nat (tq yc : Nat) :
    (⌈(tq : ℚ) / 2⌉ ≤ (yc : ℤ)) ↔ ((tq + 1) / 2 ≤ yc) := by
  rw [Int.ceil_le]
  have h2 : ((tq : ℚ) / 2 ≤ ((yc : ℤ) : ℚ)) ↔ (tq ≤ 2 * yc) := by
    rw [div_le_iff₀ (by norm_num : (0 : ℚ) < 2)]
    push_cast
    constructor
    · intro h; exact_mod_cast (by linarith : (tq : ℚ) ≤ 2 * yc)
    · intro h
      have : (tq : ℚ) ≤ 2 * yc := by exact_mod_cast h
      linarith
  rw [h2]
  omega

/-- C1: the analyze grouping implements the specification's five-step
priority chain with first match winning, the majority threshold being
the ceiling of total/2; and at (5, 5, required, no valid GitHub) the
GitHub-required check fires before every yes-count rule. -/
theorem classify_priority_chain :
    (∀ yes_count total_q require_github has_github,
        classify yes_count total_q require_github has_github
          = spec_classify yes_count total_q require_github has_github)
    ∧ classify 5 5 true false
        = ("rejected", "Rejected: GitHub missing and GitHub is required.") := by
  constructor
  · intro yc tq rg hg
    unfold classify spec_classify
    have hcond : ((rg && !hg) = true) = (rg = true ∧ hg = false) := by
      cases rg <;> cases hg <;> simp
    simp only [hcond, propext (ceil_half_nat tq yc)]
  · rfl

/-- C10: with an empty criteria set and yes-count 0, the classifier can
only reject; when GitHub is not required it gives the none-of-the-
criteria-met reason, because the yes-count-zero branch is tested before
the yes-count-equals-total branch. -/
theorem classify_empty_criteria_rejects :
    (∀ has_github, classify 0 0 false has_github
        = ("rejected", "Rejected: none of the criteria were met."))
    ∧ (∀ require_github has_github,
        (classify 0 0 require_github has_github).1 = "rejected") := by
  constructor
  · intro hg; cases hg <;> rfl
  · intro rg hg; cases rg <;> cases hg <;> rfl

/-- Reputation score in the C2 claim's six-row shape, but with every
arithmetic operation evaluated in binary64 as the program's floats do:
the amended reading of the claim after the rounding counterexample. -/
def spec_reputation_score_fp (s : GithubStats) : ℚ :=
  min (pyRound1 (pyAdd (pyAdd (pyAdd (pyAdd (pyAdd (pyAdd 0
      (pyMul (pyDiv ((min s.public_repos 50 : Nat) : ℚ) 50) 20))
      (pyMul (pyDiv ((min s.total_stars 500 : Nat) : ℚ) 500) 25))
      (pyMul (pyDiv ((min s.followers 100 : Nat) : ℚ) 100) 15))
      (pyMul (pyDiv ((min s.recent_activity 20 : Nat) : ℚ) 20) 20))
      (pyMul (pyDiv ((min s.total_forks 100 : Nat) : ℚ) 100) 10))
      (((if s.bio ≠ "" then 2 else 0) + (if s.company ≠ "" then 2 else 0)
        + (if s.location ≠ "" then 2 else 0) + (if s.blog ≠ "" then 2 else 0)
        + (if 0 < s.public_repos then 2 else 0) : Nat) : ℚ))) 100

/-- Statistics record with one follower and every other signal and text
field empty, the C2 rounding counterexample input. -/
def followersOneStats : GithubStats :=
  { username := "", public_repos := 0, followers := 1, following := 0,
    total_stars := 0, total_forks := 0, recent_activity := 0,
    profile_created := "", bio := "", company := "", location := "", blog := "" }

lemma fl_nonneg {q : ℚ} (h : 0 ≤ q) : 0 ≤ fl q := by
  unfold fl
  split
  · exact h
  · unfold flPos dyadicMul
    split
    · exact Nat.cast_nonneg _
    · exact Rat.divInt_nonneg (by exact_mod_cast Nat.zero_le _)
        (by exact_mod_cast Nat.zero_le _)

lemma pyRound1_nonneg (x : ℚ) : 0 ≤ pyRound1 x := by
  unfold pyRound1
  exact fl_nonneg (Rat.divInt_nonneg (by exact_mod_cast Nat.zero_le _) (by norm_num))

lemma githubRawScore_nonneg (s : GithubStats) : 0 ≤ githubRawScore s := by
  unfold githubRawScore
  exact pyRound1_nonneg _

set_option maxRecDepth 10000 in
/-- C2 counterexample: on the record with followers one and everything
else empty, the claim's exact formula gives 0.2 (fifteen hundredths
rounds up at the decimal tie), but the program's float evaluation
stores 0.15 as a double just below the tie and round(score, 1) gives
the double closest to 0.1, so the code disagrees with the claim. -/
theorem github_score_exact_rounding_counterexample :
    spec_reputation_score followersOneStats = 1 / 5
    ∧ calculate_github_score (some followersOneStats)
        = 3602879701896397 / 36028797018963968
    ∧ calculate_github_score (some followersOneStats)
        ≠ spec_reputation_score followersOneStats := by
  have hraw : githubRawScore followersOneStats
      = Rat.divInt 3602879701896397 36028797018963968 := by decide
  have hq : (Rat.divInt 3602879701896397 36028797018963968 : ℚ)
      = 3602879701896397 / 36028797018963968 := by
    rw [Rat.divInt_eq_div]; norm_num
  have hcalc : calculate_github_score (some followersOneStats)
      = 3602879701896397 / 36028797018963968 := by
    show min (githubRawScore followersOneStats) 100 = _
    rw [hraw, hq]
    exact min_eq_left (by norm_num)
  have h32 : round ((3 : ℚ) / 2) = 2 := by
    rw [round_eq, show (3 / 2 + 1 / 2 : ℚ) = ((2 : ℤ) : ℚ) by norm_num, Int.floor_intCast]
  have hspec : spec_reputation_score followersOneStats = 1 / 5 := by
    have he : (("" : String) ≠ "") = False := by simp
    unfold spec_reputation_score round1
    norm_num [followersOneStats, he]
    rw [h32]
    have h25 : ((2 : ℤ) : ℚ) / 10 = 1 / 5 := by norm_num
    rw [h25]
    exact min_eq_left (by norm_num)
  exact ⟨hspec, hcalc, by rw [hcalc, hspec]; norm_num⟩

set_option maxRecDepth 10000 in
/-- C2 (amended): the reputation score equals the claim's capped-sum
formula evaluated in binary64 float arithmetic for every statistics
record, always lies in the interval [0, 100], is exactly 0 on the
empty record, and is exactly 100 on the all-caps-maxed record. -/
theorem github_score_float_formula_and_bounds :
    (∀ s : GithubStats, calculate_github_score (some s) = spec_reputation_score_fp s)
    ∧ (∀ st : Option GithubStats,
        0 ≤ calculate_github_score st ∧ calculate_github_score st ≤ 100)
    ∧ calculate_github_score none = 0
    ∧ calculate_github_score (some maxedStats) = 100 := by
  refine ⟨fun s => rfl, ?_, rfl, ?_⟩
  · intro st
    cases st with
    | none => exact ⟨le_refl 0, by norm_num [calculate_github_score]⟩
    | some s =>
      unfold calculate_github_score
      exact ⟨le_min (githubRawScore_nonneg s) (by norm_num), min_le_right _ _⟩
  · have hraw : githubRawScore maxedStats = 100 := by decide
    show min (githubRawScore maxedStats) 100 = 100
    rw [hraw]
    norm_num

/-- User-record payload of the external profile API, the fields read by
the fetchers (null strings from the API are modelled as empty). -/
structure UserRecord where
  public_repos : Nat
  followers : Nat
  following : Nat
  created_at : String
  bio : String
  company : String
  location : String
  blog : String
  deriving Repr, DecidableEq

/-- Repository-list entry of the external profile API.  The updated_at
field, some t, models only a timestamp whose comparison against the
naive cutoff succeeds; none covers a missing or empty field, a string
fromisoformat rejects, and also the timestamps ending in Z, which
fromisoformat parses as timezone-aware so that the comparison with the
naive cutoff raises TypeError and the except branch skips the repo. -/
structure RepoRecord where
  stargazers_count : Nat
  forks_count : Nat
  updated_at : Option ℤ
  deriving Repr, DecidableEq

/-- Outcome of the repository-list HTTP call: status 200 with parseable
JSON, a non-200 status (the code then uses an empty list), or a call
whose json() raises (network fault or malformed body), which the outer
try swallows into an empty result without caching. -/
inductive RepoResp
  | ok (repos : List RepoRecord)
  | badStatus
  | malformed
  deriving Repr, DecidableEq

/-- External profile API as an oracle.  The user-record call collapses
non-200 and malformed-JSON to none because the Python control flow
treats both the same way: return empty after one network call, nothing
cached. -/
structure GithubApi where
  userResp : String → Option UserRecord
  reposResp : String → RepoResp

/-- In-memory TTL cache keyed by username, an association list standing
for the module-level _GH_CACHE dict; each entry carries the store time
(seconds) and the stats record.  Only non-empty records are ever stored,
so values need no Option. -/
def GhCache : Type := List (String × ℤ × GithubStats)

/-- Time-to-live of one day in seconds (_GH_CACHE_TTL_SECONDS). -/
def ghCacheTTL : ℤ := 86400

/-- Embedding of _gh_cache_get (src/backend/utils.py lines 347-360):
returns the cached record when present and fresh; deletes the entry and
returns nothing when it has expired. -/
def gh_cache_get (cache : GhCache) (username : String) (now : ℤ) :
    Option GithubStats × GhCache :=
  match List.find? (fun p => p.1 == username) cache with
  | none => (none, cache)
  | some (_, ts, data) =>
    if ghCacheTTL < now - ts then
      (none, List.filter (fun p => !(p.1 == username)) cache)
    else (some data, cache)

/-- Embedding of _gh_cache_set (src/backend/utils.py lines 363-364):
store under the username with the current timestamp, replacing any
previous entry for that key. -/
def gh_cache_set (cache : GhCache) (username : String) (now : ℤ) (data : GithubStats) : GhCache :=
  (username, now, data) :: List.filter (fun p => !(p.1 == username)) cache

/-- Removal of every occurrence of a pattern from a character list,
modelling the Python str.replace(old, new) with an empty replacement;
the fuel argument is instantiated with the input length. -/
def removeAllSub (pat : List Char) : Nat → List Char → List Char
  | 0, l => l
  | _ + 1, [] => []
  | fuel + 1, c :: cs =>
    if pat ≠ [] ∧ List.isPrefixOf pat (c :: cs) then
      removeAllSub pat fuel (List.drop pat.length (c :: cs))
    else
      c :: removeAllSub pat fuel cs

/-- Canonical GitHub profile URL prefix used by the fetchers. -/
def ghUrlPre : List Char := "https://github.com/".data

/-- Username extraction of the fetchers (utils.py lines 371-378): the
URL must start with the canonical prefix, every occurrence of the
prefix is removed as in str.replace, and the first slash-separated
segment must be non-empty. -/
def usernameOfUrl (url : String) : Option String :=
  if List.isPrefixOf ghUrlPre url.data then
    let rest := removeAllSub ghUrlPre url.data.length url.data
    let u := List.takeWhile (fun c => c ≠ '/') rest
    if u.isEmpty then none else some (String.mk u)
  else none

/-- Test whether a repository was updated within the trailing 365 days
(31536000 seconds) from now, the strict comparison of the source.  A
repo whose comparison raises (aware timestamp against the naive cutoff,
modelled as none) is skipped by the except branch and never counted. -/
def repoRecent (now : ℤ) (r : RepoRecord) : Bool :=
  match r.updated_at with
  | some ts => decide (now - 31536000 < ts)
  | none => false

/-- Assembly of the stats dict from the user record and the repository
page (utils.py lines 401-432). -/
def assembleStats (username : String) (u : UserRecord) (repos : List RepoRecord) (now : ℤ) :
    GithubStats :=
  { username := username
    public_repos := u.public_repos
    followers := u.followers
    following := u.following
    total_stars := (repos.map (fun r => r.stargazers_count)).sum
    total_forks := (repos.map (fun r => r.forks_count)).sum
    recent_activity := List.countP (fun r => repoRecent now r) repos
    profile_created := u.created_at
    bio := u.bio
    company := u.company
    location := u.location
    blog := u.blog }

/-- Outcome of one fetch: the returned record (none is the empty dict),
the cache afterwards, and how many HTTP requests were issued. -/
structure FetchResult where
  result : Option GithubStats
  cache : GhCache
  networkCalls : Nat

/-- Embedding of fetch_github_stats_async (src/backend/utils.py lines
367-438): malformed-URL fast path, TTL cache lookup, user-record call,
repository-list call with empty-list fallback on bad status, assembly,
and caching of successful results only. -/
def fetch_github_stats_async (api : GithubApi) (now : ℤ) (github_url : String)
    (cache : GhCache) : FetchResult :=
  match usernameOfUrl github_url with
  | none => ⟨none, cache, 0⟩
  | some username =>
    match gh_cache_get cache username now with
    | (some d, cache') => ⟨some d, cache', 0⟩
    | (none, cache') =>
      match api.userResp username with
      | none => ⟨none, cache', 1⟩
      | some u =>
        match api.reposResp username with
        | RepoResp.malformed => ⟨none, cache', 2⟩
        | RepoResp.badStatus =>
          let data := assembleStats username u [] now
          ⟨some data, gh_cache_set cache' username now data, 2⟩
        | RepoResp.ok repos =>
          let data := assembleStats username u repos now
          ⟨some data, gh_cache_set cache' username now data, 2⟩

/-- C5: when a fetch actually goes to the network and the user-record
call succeeds (and the repository call does not raise), the result is
cached, and a second fetch for the same URL within the 24-hour TTL is
answered from the cache with zero further HTTP requests; and when the
user-record call does not succeed, nothing is stored, the cache is
unchanged, and a later fetch goes back to the network. -/
theorem fetch_ttl_cache_single_roundtrip
    (api : GithubApi) (t1 t2 : ℤ) (url : String) (c0 : GhCache) :
    (∀ u ur, usernameOfUrl url = some u →
        List.find? (fun p => p.1 == u) c0 = none →
        api.userResp u = some ur →
        api.reposResp u ≠ RepoResp.malformed →
        t1 ≤ t2 → t2 - t1 ≤ 86400 →
        (fetch_github_stats_async api t1 url c0).networkCalls = 2 ∧
        (fetch_github_stats_async api t2 url
            (fetch_github_stats_async api t1 url c0).cache).networkCalls = 0 ∧
        (fetch_github_stats_async api t2 url
            (fetch_github_stats_async api t1 url c0).cache).result
          = (fetch_github_stats_async api t1 url c0).result ∧
        (fetch_github_stats_async api t1 url c0).result ≠ none)
    ∧ (∀ u, usernameOfUrl url = some u →
        List.find? (fun p => p.1 == u) c0 = none →
        api.userResp u = none →
        (fetch_github_stats_async api t1 url c0).result = none ∧
        (fetch_github_stats_async api t1 url c0).cache = c0 ∧
        (fetch_github_stats_async api t2 url
            (fetch_github_stats_async api t1 url c0).cache).networkCalls = 1) := by
  constructor
  · intro u ur hu hc hur hrep ht12 httl
    have hbeq : (u == u) = true := by simp
    have hfresh : ¬ (ghCacheTTL < t2 - t1) := by
      unfold ghCacheTTL; omega
    rcases hre : api.reposResp u with repos | _ | _
    · simp only [fetch_github_stats_async, hu, gh_cache_get, hc, hur, hre,
        gh_cache_set, List.find?, hbeq, if_neg hfresh]
      simp
    · simp only [fetch_github_stats_async, hu, gh_cache_get, hc, hur, hre,
        gh_cache_set, List.find?, hbeq, if_neg hfresh]
      simp
    · exact absurd hre hrep
  · intro u hu hc hur
    simp only [fetch_github_stats_async, hu, gh_cache_get, hc, hur]
    simp

/-- User record and API oracles used by the concrete fetcher scenarios. -/
def sampleUser : UserRecord :=
  { public_repos := 7, followers := 3, following := 1, created_at := "2020",
    bio := "hi", company := "", location := "", blog := "" }

/-- Oracle whose user call succeeds and whose repository call returns an
empty page with status 200. -/
def apiGood : GithubApi :=
  { userResp := fun _ => some sampleUser, reposResp := fun _ => RepoResp.ok [] }

/-- Oracle whose user call fails (non-200 or malformed). -/
def apiDown : GithubApi :=
  { userResp := fun _ => none, reposResp := fun _ => RepoResp.badStatus }

/-- Oracle whose user call succeeds but whose repository call returns a
non-200 status. -/
def apiHalf : GithubApi :=
  { userResp := fun _ => some sampleUser, reposResp := fun _ => RepoResp.badStatus }

/-- Witness for C5 at concrete inputs: a successful fetch at time 0
followed by a fetch at time 100 on the resulting cache, and a failing
fetch followed by a retry. -/
theorem fetch_ttl_cache_single_roundtrip_witness :
    ((fetch_github_stats_async apiGood 0 "https://github.com/alice" []).networkCalls = 2 ∧
      (fetch_github_stats_async apiGood 100 "https://github.com/alice"
          (fetch_github_stats_async apiGood 0 "https://github.com/alice" []).cache).networkCalls = 0 ∧
      (fetch_github_stats_async apiGood 100 "https://github.com/alice"
          (fetch_github_stats_async apiGood 0 "https://github.com/alice" []).cache).result
        = (fetch_github_stats_async apiGood 0 "https://github.com/alice" []).result ∧
      (fetch_github_stats_async apiGood 0 "https://github.com/alice" []).result ≠ none)
    ∧ ((fetch_github_stats_async apiDown 0 "https://github.com/alice" []).result = none ∧
      (fetch_github_stats_async apiDown 0 "https://github.com/alice" []).cache = [] ∧
      (fetch_github_stats_async apiDown 100 "https://github.com/alice"
          (fetch_github_stats_async apiDown 0 "https://github.com/alice" []).cache).networkCalls = 1) := by
  constructor
  · exact (fetch_ttl_cache_single_roundtrip apiGood 0 100 "https://github.com/alice" []).1
      "alice" sampleUser (by decide) rfl rfl (by decide) (by decide) (by decide)
  · exact (fetch_ttl_cache_single_roundtrip apiDown 0 100 "https://github.com/alice" []).2
      "alice" (by decide) rfl rfl

/-- C9: when the user-record call succeeds but the repository-list call
returns a non-200 status, the fetch returns a non-empty record whose
aggregate star, fork and recent-activity counts are zero (the page is
treated as an empty list) while the user-record fields survive. -/
theorem fetch_repos_failure_zeroed_record
    (api : GithubApi) (now : ℤ) (url : String) (c0 : GhCache) :
    ∀ u ur, usernameOfUrl url = some u →
      List.find? (fun p => p.1 == u) c0 = none →
      api.userResp u = some ur →
      api.reposResp u = RepoResp.badStatus →
      (fetch_github_stats_async api now url c0).result = some (assembleStats u ur [] now) ∧
      (fetch_github_stats_async api now url c0).result ≠ none ∧
      (assembleStats u ur [] now).total_stars = 0 ∧
      (assembleStats u ur [] now).total_forks = 0 ∧
      (assembleStats u ur [] now).recent_activity = 0 ∧
      (assembleStats u ur [] now).username = u ∧
      (assembleStats u ur [] now).public_repos = ur.public_repos := by
  intro u ur hu hc hur hre
  simp only [fetch_github_stats_async, hu, gh_cache_get, hc, hur, hre]
  simp [assembleStats]

/-- Witness for C9: the half-failing oracle at a concrete URL and time. -/
theorem fetch_repos_failure_zeroed_record_witness :
    (fetch_github_stats_async apiHalf 0 "https://github.com/alice" []).result
      = some (assembleStats "alice" sampleUser [] 0) ∧
    (assembleStats "alice" sampleUser [] 0).total_stars = 0 ∧
    (assembleStats "alice" sampleUser [] 0).public_repos = 7 := by
  have h := fetch_repos_failure_zeroed_record apiHalf 0 "https://github.com/alice" []
    "alice" sampleUser (by decide) rfl rfl rfl
  exact ⟨h.1, h.2.2.1, h.2.2.2.2.2.2⟩

/-- ASCII word character in the sense of the regex escape for word
characters: letters, digits and underscore (the texts under proof are
ASCII; non-ASCII word characters are not modelled). -/
def isWordChar (c : Char) : Bool := c.isAlphanum || c == '_'

/-- Character class of the capture groups in extract_github_links:
letters, digits, dot, underscore, hyphen. -/
def isClassChar (c : Char) : Bool := c.isAlphanum || c == '.' || c == '_' || c == '-'

/-- ASCII whitespace in the sense of the regex escape for whitespace. -/
def isSpaceChar (c : Char) : Bool :=
  c == ' ' || c == '\t' || c == '\n' || c == '\r' || c == Char.ofNat 11 || c == Char.ofNat 12

/-- Word-boundary test between a last consumed character and the next
character (none at end of input). -/
def boundaryAfter (c : Char) (next : Option Char) : Bool :=
  match next with
  | none => isWordChar c
  | some d => isWordChar c != isWordChar d

/-- Case-insensitive literal matcher: consumes the literal (given in
lowercase) from the input and returns the remaining input. -/
def matchCI : List Char → List Char → Option (List Char)
  | [], cs => some cs
  | _ :: _, [] => none
  | l :: ls, c :: cs => if c.toLower == l then matchCI ls cs else none

/-- Backtracking tail of the capture: drop characters from the end of
the greedy run until a word boundary holds between the capture and what
follows, as the regex engine does for a greedy class-plus followed by a
word boundary.  The first argument is the reversed remaining capture. -/
def shrinkRev : List Char → List Char → Option (List Char × List Char)
  | [], _ => none
  | c :: rcap, rest =>
    if boundaryAfter c rest.head? then some ((c :: rcap).reverse, rest)
    else shrinkRev rcap (c :: rest)

/-- Greedy capture of one-or-more class characters followed by either a
slash (consumed) or a word boundary, the shared tail of the URL and
domain patterns of extract_github_links. -/
def capClass (cs : List Char) : Option (List Char × List Char) :=
  match List.takeWhile isClassChar cs, List.drop (List.takeWhile isClassChar cs).length cs with
  | [], _ => none
  | r0 :: run', '/' :: rest2 => some (r0 :: run', rest2)
  | r0 :: run', rest => shrinkRev (r0 :: run').reverse rest

/-- Optional www-dot of the URL and domain patterns: consume it when it
matches, otherwise leave the input unchanged (the fallback alternative
can never succeed after a consumed www, so this is the full
backtracking behavior). -/
def optWWW (cs : List Char) : List Char :=
  match matchCI "www.".data cs with
  | some x => x
  | none => cs

/-- Matcher for the first pattern of extract_github_links (utils.py line
119): full URL with scheme, optional www, then the capture. -/
def matchP1 (_prev : Option Char) (cs : List Char) : Option (List Char × List Char) :=
  match matchCI "http".data cs with
  | none => none
  | some cs1 =>
    match (match matchCI "s://".data cs1 with
           | some x => some x
           | none => matchCI "://".data cs1) with
    | none => none
    | some cs2 =>
      match matchCI "github.com/".data (optWWW cs2) with
      | none => none
      | some cs4 => capClass cs4

/-- Domain-and-capture tail shared by the positions where the second
pattern may start. -/
def matchP2core (cs : List Char) : Option (List Char × List Char) :=
  match matchCI "github.com/".data (optWWW cs) with
  | none => none
  | some cs2 => capClass cs2

/-- Matcher for the second pattern (utils.py line 125): a word boundary,
optional www, the bare domain, then the capture.  The boundary test uses
the previous character; the first matched character is always a word
character. -/
def matchP2 (prev : Option Char) (cs : List Char) : Option (List Char × List Char) :=
  match prev with
  | none => matchP2core cs
  | some p => if isWordChar p then none else matchP2core cs

/-- Matcher for the third pattern (utils.py line 132): the literal
github-colon label, optional whitespace, then a greedy class capture
with no tail condition. -/
def matchP3 (_prev : Option Char) (cs : List Char) : Option (List Char × List Char) :=
  match matchCI "github:".data cs with
  | none => none
  | some cs1 =>
    match List.takeWhile isClassChar (List.dropWhile isSpaceChar cs1) with
    | [] => none
    | r0 :: run' =>
      some (r0 :: run', List.drop (r0 :: run').length (List.dropWhile isSpaceChar cs1))

/-- Tail of the fourth pattern: the literal github followed by a word
boundary; returns the already captured run and the input after the
literal. -/
def tryGithubTail (run : List Char) (l : List Char) : Option (List Char × List Char) :=
  match matchCI "github".data l with
  | none => none
  | some rest =>
    match rest.head? with
    | none => some (run, rest)
    | some d => if isWordChar d then none else some (run, rest)

/-- Optional on-plus-whitespace group of the fourth pattern: consumes
the literal on and at least one whitespace character, or fails. -/
def onGroup (cs2 : List Char) : Option (List Char) :=
  match matchCI "on".data cs2 with
  | some csA =>
    match List.takeWhile isSpaceChar csA with
    | [] => none
    | _ :: _ => some (List.dropWhile isSpaceChar csA)
  | none => none

/-- Selection between the optional on-group branch and the plain tail of
the fourth pattern, with the engine's fallback order. -/
def matchP4sel (run cs2 : List Char) : Option (List Char × List Char) :=
  match onGroup cs2 with
  | some csB =>
    match tryGithubTail run csB with
    | some r => some r
    | none => tryGithubTail run cs2
  | none => tryGithubTail run cs2

/-- Matcher for the fourth pattern (utils.py line 137): an at-sign, a
greedy class capture, mandatory whitespace, an optional on-plus-
whitespace, the literal github, and a word boundary.  The class and
whitespace sets are disjoint, so the greedy runs need no backtracking
against each other. -/
def matchP4 (_prev : Option Char) : List Char → Option (List Char × List Char)
  | '@' :: cs =>
    match List.takeWhile isClassChar cs with
    | [] => none
    | r0 :: run' =>
      match List.takeWhile isSpaceChar (List.drop (r0 :: run').length cs) with
      | [] => none
      | _ :: _ =>
        matchP4sel (r0 :: run')
          (List.dropWhile isSpaceChar (List.drop (r0 :: run').length cs))
  | _ => none

/-- Driver of re.findall: try the matcher at every position from left to
right, collect captures of non-overlapping matches, resume after each
match, and track the previous character for boundary tests.  The fuel is
instantiated with the input length plus one; every successful match
consumes at least one character. -/
def scanAux (m : Option Char → List Char → Option (List Char × List Char)) :
    Nat → Option Char → List Char → List (List Char)
  | 0, _, _ => []
  | _ + 1, _, [] => []
  | fuel + 1, prev, c :: cs =>
    match m prev (c :: cs) with
    | some (cap, rest) =>
      cap :: scanAux m fuel (List.take ((c :: cs).length - rest.length) (c :: cs)).getLast? rest
    | none => scanAux m fuel (some c) cs

/-- Findall over a whole character list. -/
def runScan (m : Option Char → List Char → Option (List Char × List Char))
    (cs : List Char) : List (List Char) :=
  scanAux m (cs.length + 1) none cs

/-- Trailing punctuation stripped by the helper named underscore-clean
inside extract_github_links: close-paren, dot, comma, semicolon, colon,
single and double quote. -/
def cleanChars : List Char := [')', '.', ',', ';', ':', Char.ofNat 39, Char.ofNat 34]

/-- Right-strip of the punctuation set, the regex helper applied to each
captured segment. -/
def cleanSeg (s : List Char) : List Char :=
  (List.dropWhile (fun c => cleanChars.contains c) s.reverse).reverse

/-- ASCII lowercasing of a string, as the Python lower method behaves on
the ASCII usernames under consideration. -/
def strLower (s : String) : String := String.mk (s.data.map Char.toLower)

/-- Reserved GitHub path segments of extract_github_links (utils.py
lines 108-112); the source set literal lists sponsors twice, which is
the same set.  Note that admin and api are not members. -/
def reservedGithub : List String :=
  ["features", "topics", "collections", "trending", "marketplace", "about", "pricing",
   "sponsors", "apps", "login", "join", "settings", "organizations", "orgs", "enterprise",
   "security", "readme", "explore", "contact", "blog", "search", "customer-stories",
   "events", "site", "issues", "pulls"]

/-- First-occurrence deduplication with an accumulator of already seen
entries; with an empty accumulator this is the seen-set loop of the
analyze aggregation (src/backend/main.py lines 242-247) and the
dict-from-keys deduplication of the PDF harvester, and it realizes set
semantics wherever only membership matters. -/
def dedupFirstAux (seen : List String) : List String → List String
  | [] => []
  | x :: xs =>
    if seen.contains x then dedupFirstAux seen xs
    else x :: dedupFirstAux (x :: seen) xs

/-- First-occurrence deduplication of a list of strings. -/
def dedupFirst (l : List String) : List String := dedupFirstAux [] l

/-- Union of text-derived candidates before PDF-derived candidates with
first occurrence winning, the analyze aggregation of src/backend/main.py
lines 240-248. -/
def union_text_first (textLinks pdfLinks : List String) : List String :=
  dedupFirst (textLinks ++ pdfLinks)

/-- Concatenation of the findall results of the four pattern families,
in source order. -/
def githubCandidates (cs : List Char) : List (List Char) :=
  runScan matchP1 cs ++ runScan matchP2 cs ++ runScan matchP3 cs ++ runScan matchP4 cs

/-- Captures of the four pattern families after punctuation stripping,
kept when longer than two characters and not reserved (lowercased), the
per-match filtering of the source loops. -/
def goodGithubNames (cs : List Char) : List (List Char) :=
  List.filter (fun m =>
      decide (2 < m.length) && !(reservedGithub.contains (strLower (String.mk m))))
    (List.map (fun c => cleanSeg c) (githubCandidates cs))

/-- Code-point lexicographic comparison of character lists, the string
order Python sorted uses. -/
def listLe : List Char → List Char → Bool
  | [], _ => true
  | _ :: _, [] => false
  | a :: as, b :: bs =>
    if a.toNat < b.toNat then true
    else if b.toNat < a.toNat then false
    else listLe as bs

/-- Code-point lexicographic order on strings. -/
def strLe (a b : String) : Bool := listLe a.data b.data

/-- Embedding of extract_github_links (src/backend/utils.py lines
96-147): run the four pattern families, right-strip punctuation from
each capture, keep captures longer than two characters whose lowercase
form is not reserved, deduplicate usernames (set semantics), build
canonical profile URLs and return them sorted, as sorted-list-of-set
does in the source. -/
def extract_github_links (text : String) : List String :=
  if text = "" then []
  else
    List.insertionSort (fun a b => strLe a b = true)
      (dedupFirst (List.map (fun u => "https://github.com/" ++ u)
        (dedupFirst (List.map (fun m => String.mk m) (goodGithubNames text.data)))))

/-- Wrapper recording the truthiness test at the top of
extract_github_links: a missing (None) text and the empty text both
yield the empty list. -/
def extract_github_links_opt : Option String → List String
  | none => []
  | some t => extract_github_links t

/-- Action dictionary of a PDF link annotation: its action kind string
and the URI value when present and a string (a non-string URI is none,
which the isinstance test in the source rejects). -/
structure PdfAction where
  s : String
  uri : Option String
  deriving Repr, DecidableEq

/-- Link annotation of one PDF page: the subtype string and an optional
action dictionary. -/
structure PdfAnnot where
  subtype : String
  action : Option PdfAction
  deriving Repr, DecidableEq

/-- URI harvested from one annotation by extract_pdf_links_from_bytes:
present only for subtype Link with a URI action whose URI is a string;
the value is stripped of surrounding whitespace. -/
def annotUri (a : PdfAnnot) : Option String :=
  if a.subtype = "/Link" then
    match a.action with
    | some act => if act.s = "/URI" then Option.map String.trim act.uri else none
    | none => none
  else none

/-- Embedding of extract_pdf_links_from_bytes (src/backend/utils.py
lines 201-223).  The none case stands for any parse failure of the
surrounding try block (corrupt bytes, missing structures); the some case
is the parsed page list, each page carrying its annotation list in
order.  The result is the annotation URIs in page order then annotation
order, deduplicated keeping first occurrences, as dict-from-keys does in
the source. -/
def extract_pdf_links_from_bytes : Option (List (List PdfAnnot)) → List String
  | none => []
  | some pages => dedupFirst (pages.map (fun annots => annots.filterMap annotUri)).flatten

/-- C8: the extraction, harvesting and scoring entry points are total:
a missing or empty text yields the empty list, a failed PDF parse
yields the empty list, and scoring and extraction return a value on
every input. -/
theorem extraction_and_scoring_total :
    extract_github_links_opt none = []
    ∧ extract_github_links_opt (some "") = []
    ∧ extract_pdf_links_from_bytes none = []
    ∧ (∀ st : Option GithubStats, ∃ q : ℚ, calculate_github_score st = q)
    ∧ (∀ t : String, ∃ l : List String, extract_github_links t = l)
    ∧ (∀ d : Option (List (List PdfAnnot)), ∃ l : List String,
        extract_pdf_links_from_bytes d = l) := by
  exact ⟨rfl, rfl, rfl, fun st => ⟨_, rfl⟩, fun t => ⟨_, rfl⟩, fun d => ⟨_, rfl⟩⟩

/-- Right-strip by a predicate. -/
def dropTrailing (p : Char → Bool) (s : List Char) : List Char :=
  (List.dropWhile p s.reverse).reverse

/-- Substring containment test over character lists, the Python infix
membership test on strings. -/
def hasSub (pat : List Char) : List Char → Bool
  | [] => pat.isEmpty
  | c :: cs => List.isPrefixOf pat (c :: cs) || hasSub pat cs

/-- Replacement of every occurrence of a pattern, the Python
str.replace; the fuel argument is instantiated with the input length. -/
def replaceSub (pat rep : List Char) : Nat → List Char → List Char
  | 0, l => l
  | _ + 1, [] => []
  | fuel + 1, c :: cs =>
    if pat ≠ [] ∧ List.isPrefixOf pat (c :: cs) then
      rep ++ replaceSub pat rep fuel (List.drop pat.length (c :: cs))
    else c :: replaceSub pat rep fuel cs

/-- Whitespace trim at both ends, the Python strip method (ASCII
whitespace). -/
def trimWs (cs : List Char) : List Char :=
  dropTrailing isSpaceChar (List.dropWhile isSpaceChar cs)

/-- Embedding of ChatGPTService normalize-github-url
(src/backend/services/openai_service.py lines 152-163): strip, remove
trailing slashes, default the scheme to https, upgrade http to https,
collapse the www host, and require the github domain substring. -/
def normalize_github_url (url : String) : String :=
  if url = "" then ""
  else
    let u := trimWs url.data
    let u := dropTrailing (fun c => c == '/') u
    let u := if List.isPrefixOf "http://".data u || List.isPrefixOf "https://".data u
             then u else "https://".data ++ u
    let u := if List.isPrefixOf "http://".data u then "https://".data ++ List.drop 7 u else u
    let u := replaceSub "https://www.github.com/".data "https://github.com/".data u.length u
    if hasSub "github.com/".data u then String.mk u else ""

/-- Split of a character list at the first occurrence of a pattern.
URLs without a scheme separator parse as pure path, matching what
urlparse yields for the shapes reaching the validator (any string it
parses differently fails the https-scheme or hostname test either
way). -/
def splitAtSub (pat : List Char) : List Char → Option (List Char × List Char)
  | [] => none
  | c :: cs =>
    if List.isPrefixOf pat (c :: cs) then some ([], List.drop pat.length (c :: cs))
    else match splitAtSub pat cs with
         | some (pre, post) => some (c :: pre, post)
         | none => none

/-- Scheme, netloc and path of a URL, splitting at the first
scheme-separator. -/
def parseUrl (url : String) : String × String × String :=
  match splitAtSub "://".data url.data with
  | none => ("", "", url)
  | some (pre, post) =>
    let netloc := List.takeWhile (fun c => c ≠ '/') post
    let path := List.drop netloc.length post
    (strLower (String.mk pre), String.mk netloc, String.mk path)

/-- Hostname of a netloc as urlparse reports it: the part after the last
at-sign and before any port separator, lowercased; none when empty. -/
def hostnameOf (netloc : String) : Option String :=
  let afterAt := (List.takeWhile (fun c => c ≠ '@') netloc.data.reverse).reverse
  let host := List.takeWhile (fun c => c ≠ ':') afterAt
  if host.isEmpty then none else some (strLower (String.mk host))

/-- Reserved usernames of the ChatGPTService validator
(src/backend/services/openai_service.py line 178); unlike the utils set
this one contains admin and api. -/
def serviceReserved : List String :=
  ["about", "account", "admin", "api", "apps", "assets", "blog", "business", "contact",
   "dashboard", "developer", "docs", "enterprise", "explore", "features", "gist", "help",
   "home", "join", "login", "logout", "marketplace", "new", "notifications", "organizations",
   "pricing", "privacy", "search", "security", "settings", "site", "support", "team", "terms",
   "topics", "trending", "users", "www"]

/-- Characters the service validator allows in a username: ASCII
letters, digits and the hyphen. -/
def isGhNameChar (c : Char) : Bool := c.isAlpha || c.isDigit || c == '-'

/-- Leading and trailing slashes stripped from a path, the Python
strip with a slash argument. -/
def stripSlashes (cs : List Char) : List Char :=
  dropTrailing (fun c => c == '/') (List.dropWhile (fun c => c == '/') cs)

/-- First segment of the stripped URL path, the username the service
validator checks. -/
def pathUsername (url : String) : String :=
  String.mk (List.takeWhile (fun c => c ≠ '/') (stripSlashes (parseUrl url).2.2.data))

/-- Embedding of ChatGPTService is-valid-github-url
(src/backend/services/openai_service.py lines 165-192): https scheme,
github host, non-empty path, first path segment not reserved, only
letters, digits and hyphens, no leading or trailing hyphen, no double
hyphen. -/
def is_valid_github_url (url : String) : Bool :=
  if url = "" then false
  else if (parseUrl url).1 ≠ "https" then false
  else if hostnameOf (parseUrl url).2.1 ≠ some "github.com" then false
  else
    match stripSlashes (parseUrl url).2.2.data with
    | [] => false
    | _ :: _ =>
      if serviceReserved.contains (strLower (pathUsername url)) then false
      else if !((pathUsername url).data.all isGhNameChar) then false
      else if List.isPrefixOf ['-'] (pathUsername url).data
           || List.isPrefixOf ['-'] (pathUsername url).data.reverse then false
      else if hasSub ['-', '-'] (pathUsername url).data then false
      else true

/-- Username the service deduplication derives from a normalized link
(openai_service.py line 141): remove every canonical-prefix occurrence
and take the first slash-separated segment. -/
def srvUsername (link : String) : String :=
  String.mk (List.takeWhile (fun c => c ≠ '/') (removeAllSub ghUrlPre link.data.length link.data))

/-- Normalization-and-validation stage of ChatGPTService
extract-github-links (openai_service.py lines 133-137), applied to the
raw candidate list the pattern families produce. -/
def serviceNormalizedLinks (links : List String) : List String :=
  links.filterMap (fun l =>
    if !(normalize_github_url l == "") && is_valid_github_url (normalize_github_url l)
    then some (normalize_github_url l) else none)

/-- First deduplication pass (openai_service.py lines 138-144): keep
profile-level links, those with exactly three slashes, one per new
username; returns the kept links and the seen set. -/
def srvPassA (seen : List String) : List String → List String × List String
  | [] => ([], seen)
  | l :: ls =>
    if !(seen.contains (srvUsername l)) && (List.count '/' l.data == 3) then
      ((l :: (srvPassA (srvUsername l :: seen) ls).1), (srvPassA (srvUsername l :: seen) ls).2)
    else srvPassA seen ls

/-- Second deduplication pass (openai_service.py lines 145-149): keep
any remaining link whose username is still unseen. -/
def srvPassB (seen : List String) : List String → List String
  | [] => []
  | l :: ls =>
    if !(seen.contains (srvUsername l)) then l :: srvPassB (srvUsername l :: seen) ls
    else srvPassB seen ls

/-- Normalization, validation and two-pass deduplication of
ChatGPTService extract-github-links (openai_service.py lines 133-150)
as a function of the candidate list the pattern families produce. -/
def service_extract_post (links : List String) : List String :=
  let norm := serviceNormalizedLinks links
  let pa := srvPassA [] norm
  pa.1 ++ srvPassB pa.2 norm

lemma mem_dedupFirstAux {x : String} :
    ∀ (l seen : List String), x ∈ dedupFirstAux seen l → x ∈ l := by
  intro l
  induction l with
  | nil => intro seen h; simp [dedupFirstAux] at h
  | cons a l' ih =>
    intro seen h
    unfold dedupFirstAux at h
    split at h
    · exact List.mem_cons_of_mem _ (ih _ h)
    · rcases List.mem_cons.mp h with h1 | h2
      · exact h1 ▸ List.mem_cons_self _ _
      · exact List.mem_cons_of_mem _ (ih _ h2)

lemma dedupFirstAux_not_mem_seen {x : String} :
    ∀ (l seen : List String), x ∈ dedupFirstAux seen l → ¬ x ∈ seen := by
  intro l
  induction l with
  | nil => intro seen h; simp [dedupFirstAux] at h
  | cons a l' ih =>
    intro seen h
    unfold dedupFirstAux at h
    split at h
    · exact ih _ h
    · rename_i hcon
      rcases List.mem_cons.mp h with h1 | h2
      · subst h1
        intro hx
        exact hcon (List.elem_iff.mpr hx)
      · intro hx
        exact ih _ h2 (List.mem_cons_of_mem _ hx)

lemma dedupFirstAux_nodup : ∀ (l seen : List String), (dedupFirstAux seen l).Nodup := by
  intro l
  induction l with
  | nil => intro seen; simp [dedupFirstAux]
  | cons a l' ih =>
    intro seen
    unfold dedupFirstAux
    split
    · exact ih _
    · refine List.nodup_cons.mpr ⟨?_, ih _⟩
      intro hmem
      exact dedupFirstAux_not_mem_seen _ _ hmem (List.mem_cons_self _ _)

lemma dedupFirstAux_sublist : ∀ (l seen : List String), List.Sublist (dedupFirstAux seen l) l := by
  intro l
  induction l with
  | nil => intro seen; simp [dedupFirstAux]
  | cons a l' ih =>
    intro seen
    unfold dedupFirstAux
    split
    · exact (ih _).cons _
    · exact (ih _).cons₂ _

lemma dedupFirstAux_congr : ∀ (l seen₁ seen₂ : List String),
    (∀ x, x ∈ seen₁ ↔ x ∈ seen₂) → dedupFirstAux seen₁ l = dedupFirstAux seen₂ l := by
  intro l
  induction l with
  | nil => intro seen₁ seen₂ _; rfl
  | cons a l' ih =>
    intro seen₁ seen₂ hiff
    unfold dedupFirstAux
    have hc : (seen₁.contains a) = (seen₂.contains a) := by
      rw [Bool.eq_iff_iff]
      constructor
      · intro h; exact List.elem_iff.mpr ((hiff a).mp (List.elem_iff.mp h))
      · intro h; exact List.elem_iff.mpr ((hiff a).mpr (List.elem_iff.mp h))
    rw [hc]
    split
    · exact ih _ _ hiff
    · rw [ih (a :: seen₁) (a :: seen₂) (by intro x; simp [hiff x])]

lemma dedupFirstAux_filter : ∀ (l seen : List String) (a : String),
    dedupFirstAux (a :: seen) l
      = dedupFirstAux seen (List.filter (fun x => !(x == a)) l) := by
  intro l
  induction l with
  | nil => intro seen a; rfl
  | cons b l' ih =>
    intro seen a
    by_cases hba : b = a
    · subst hba
      have hcon : (b :: seen).contains b = true := List.elem_iff.mpr (List.mem_cons_self _ _)
      have hbb : (!(b == b)) = false := by simp
      simp only [dedupFirstAux, List.filter, hcon, hbb, if_true]
      exact ih seen b
    · have hfilter : List.filter (fun x => !(x == a)) (b :: l')
          = b :: List.filter (fun x => !(x == a)) l' := by
        simp only [List.filter]
        have : (!(b == a)) = true := by simp [hba]
        rw [this]
      rw [hfilter]
      unfold dedupFirstAux
      have hc : (a :: seen).contains b = seen.contains b := by
        rw [Bool.eq_iff_iff]
        simp [List.elem_iff, hba]
      rw [hc]
      split
      · exact ih seen a
      · congr 1
        rw [dedupFirstAux_congr l' (b :: a :: seen) (a :: b :: seen)
            (by intro x; constructor <;> (intro h; simp at h ⊢; tauto))]
        exact ih (b :: seen) a

/-- First-occurrence characterization of the aggregation deduplication:
the head is kept and later equal entries are dropped. -/
lemma dedupFirst_cons (a : String) (l : List String) :
    dedupFirst (a :: l) = a :: dedupFirst (List.filter (fun x => !(x == a)) l) := by
  show dedupFirstAux [] (a :: l) = a :: dedupFirstAux [] (List.filter (fun x => !(x == a)) l)
  rw [show dedupFirstAux ([] : List String) (a :: l) = a :: dedupFirstAux [a] l from rfl]
  rw [dedupFirstAux_filter l [] a]

lemma shrinkRev_subset :
    ∀ (r rest cap rest' : List Char), shrinkRev r rest = some (cap, rest') →
      ∀ c ∈ cap, c ∈ r := by
  intro r
  induction r with
  | nil => intro rest cap rest' h; simp [shrinkRev] at h
  | cons a r' ih =>
    intro rest cap rest' h c hc
    unfold shrinkRev at h
    split at h
    · rw [Option.some.injEq, Prod.mk.injEq] at h
      rw [← h.1] at hc
      exact List.mem_reverse.mp hc
    · exact List.mem_cons_of_mem _ (ih _ _ _ h c hc)

lemma capClass_class (cs cap rest : List Char) (h : capClass cs = some (cap, rest)) :
    ∀ c ∈ cap, isClassChar c = true := by
  intro c hc
  unfold capClass at h
  split at h
  · cases h
  · rename_i heq _
    rw [Option.some.injEq, Prod.mk.injEq] at h
    rw [← h.1] at hc
    rw [← heq] at hc
    exact List.mem_takeWhile_imp hc
  · rename_i r0 run' heqtw hns
    have hsub := shrinkRev_subset _ _ _ _ h c hc
    have hmem : c ∈ List.takeWhile isClassChar cs := by
      rw [heqtw]
      exact List.mem_reverse.mp hsub
    exact List.mem_takeWhile_imp hmem

lemma matchP1_class (p : Option Char) (cs cap rest : List Char)
    (h : matchP1 p cs = some (cap, rest)) : ∀ c ∈ cap, isClassChar c = true := by
  unfold matchP1 at h
  split at h
  · cases h
  · split at h
    · cases h
    · split at h
      · cases h
      · exact capClass_class _ _ _ h

lemma matchP2core_class (cs cap rest : List Char)
    (h : matchP2core cs = some (cap, rest)) : ∀ c ∈ cap, isClassChar c = true := by
  unfold matchP2core at h
  split at h
  · cases h
  · exact capClass_class _ _ _ h

lemma matchP2_class (p : Option Char) (cs cap rest : List Char)
    (h : matchP2 p cs = some (cap, rest)) : ∀ c ∈ cap, isClassChar c = true := by
  unfold matchP2 at h
  split at h
  · exact matchP2core_class _ _ _ h
  · split at h
    · cases h
    · exact matchP2core_class _ _ _ h

lemma matchP3_class (p : Option Char) (cs cap rest : List Char)
    (h : matchP3 p cs = some (cap, rest)) : ∀ c ∈ cap, isClassChar c = true := by
  unfold matchP3 at h
  split at h
  · cases h
  · split at h
    · cases h
    · rename_i heq
      rw [Option.some.injEq, Prod.mk.injEq] at h
      intro c hc
      rw [← h.1] at hc
      rw [← heq] at hc
      exact List.mem_takeWhile_imp hc

lemma tryGithubTail_cap (run l cap rest : List Char)
    (h : tryGithubTail run l = some (cap, rest)) : cap = run := by
  unfold tryGithubTail at h
  split at h
  · cases h
  · split at h
    · rw [Option.some.injEq, Prod.mk.injEq] at h
      exact h.1.symm
    · split at h
      · cases h
      · rw [Option.some.injEq, Prod.mk.injEq] at h
        exact h.1.symm

lemma matchP4sel_cap (run cs2 cap rest : List Char)
    (h : matchP4sel run cs2 = some (cap, rest)) : cap = run := by
  unfold matchP4sel at h
  split at h
  · split at h
    · rename_i r heqr
      rw [Option.some.injEq] at h
      rcases r with ⟨cap', rest'⟩
      have hcr := tryGithubTail_cap _ _ _ _ heqr
      rw [Prod.mk.injEq] at h
      rw [← h.1]
      exact hcr
    · exact tryGithubTail_cap _ _ _ _ h
  · exact tryGithubTail_cap _ _ _ _ h

lemma matchP4_class (p : Option Char) (cs cap rest : List Char)
    (h : matchP4 p cs = some (cap, rest)) : ∀ c ∈ cap, isClassChar c = true := by
  intro c hc
  unfold matchP4 at h
  split at h
  · rename_i cs0
    split at h
    · cases h
    · rename_i r0 run' heq
      split at h
      · cases h
      · have hcap := matchP4sel_cap _ _ _ _ h
        rw [hcap] at hc
        rw [← heq] at hc
        exact List.mem_takeWhile_imp hc
  · cases h

lemma scanAux_all {m : Option Char → List Char → Option (List Char × List Char)}
    {P : List Char → Prop}
    (hm : ∀ p cs cap rest, m p cs = some (cap, rest) → P cap) :
    ∀ (fuel : Nat) (prev : Option Char) (cs : List Char), ∀ cap ∈ scanAux m fuel prev cs, P cap := by
  intro fuel
  induction fuel with
  | zero => intro prev cs cap h; simp [scanAux] at h
  | succ n ih =>
    intro prev cs cap h
    cases cs with
    | nil => simp [scanAux] at h
    | cons c cs' =>
      unfold scanAux at h
      split at h
      · rename_i cap' rest heqm
        rcases List.mem_cons.mp h with h1 | h2
        · subst h1; exact hm _ _ _ _ heqm
        · exact ih _ _ _ h2
      · exact ih _ _ _ h

lemma cleanSeg_subset (s : List Char) : ∀ c ∈ cleanSeg s, c ∈ s := by
  intro c hc
  unfold cleanSeg at hc
  have h1 := List.mem_reverse.mp hc
  have h2 := (List.dropWhile_sublist _).subset h1
  exact List.mem_reverse.mp h2

lemma githubCandidates_class (cs : List Char) :
    ∀ cap ∈ githubCandidates cs, ∀ c ∈ cap, isClassChar c = true := by
  intro cap hcap
  unfold githubCandidates at hcap
  unfold runScan at hcap
  rcases List.mem_append.mp hcap with h | h4
  · rcases List.mem_append.mp h with h' | h3
    · rcases List.mem_append.mp h' with h1 | h2
      · exact scanAux_all matchP1_class _ _ _ cap h1
      · exact scanAux_all matchP2_class _ _ _ cap h2
    · exact scanAux_all matchP3_class _ _ _ cap h3
  · exact scanAux_all matchP4_class _ _ _ cap h4

/-- Every canonical URL the extractor returns is the canonical prefix
followed by a username that is longer than two characters, drawn from
the capture character class, and not reserved (lowercased). -/
lemma extract_github_links_mem (text url : String)
    (h : url ∈ extract_github_links text) :
    ∃ u : String, url = "https://github.com/" ++ u ∧ 2 < u.length ∧
      (∀ c ∈ u.data, isClassChar c = true) ∧
      reservedGithub.contains (strLower u) = false := by
  unfold extract_github_links at h
  split at h
  · simp at h
  · have h1 : url ∈ dedupFirst (List.map (fun u => "https://github.com/" ++ u)
        (dedupFirst (List.map (fun m => String.mk m) (goodGithubNames text.data)))) :=
      (List.perm_insertionSort _ _).mem_iff.mp h
    have h2 := mem_dedupFirstAux _ _ h1
    rcases List.mem_map.mp h2 with ⟨u, hu, hurl⟩
    have h3 := mem_dedupFirstAux _ _ hu
    rcases List.mem_map.mp h3 with ⟨m, hm, hmu⟩
    have h4 := List.mem_filter.mp hm
    rcases List.mem_map.mp h4.1 with ⟨cnd, hcnd, hclean⟩
    have hpred := h4.2
    rw [Bool.and_eq_true, decide_eq_true_eq, Bool.not_eq_true'] at hpred
    refine ⟨u, hurl.symm, ?_, ?_, ?_⟩
    · rw [← hmu]
      exact hpred.1
    · intro c hc
      rw [← hmu] at hc
      have hcm : c ∈ m := hc
      rw [← hclean] at hcm
      exact githubCandidates_class _ _ hcnd c (cleanSeg_subset _ c hcm)
    · rw [← hmu]
      exact hpred.2

lemma srvPassA_subset : ∀ (l seen : List String) (x : String), x ∈ (srvPassA seen l).1 → x ∈ l := by
  intro l
  induction l with
  | nil => intro seen x h; simp [srvPassA] at h
  | cons a l' ih =>
    intro seen x h
    unfold srvPassA at h
    split at h
    · rcases List.mem_cons.mp h with h1 | h2
      · exact h1 ▸ List.mem_cons_self _ _
      · exact List.mem_cons_of_mem _ (ih _ _ h2)
    · exact List.mem_cons_of_mem _ (ih _ _ h)

lemma srvPassB_subset : ∀ (l seen : List String) (x : String), x ∈ srvPassB seen l → x ∈ l := by
  intro l
  induction l with
  | nil => intro seen x h; simp [srvPassB] at h
  | cons a l' ih =>
    intro seen x h
    unfold srvPassB at h
    split at h
    · rcases List.mem_cons.mp h with h1 | h2
      · exact h1 ▸ List.mem_cons_self _ _
      · exact List.mem_cons_of_mem _ (ih _ _ h2)
    · exact List.mem_cons_of_mem _ (ih _ _ h)

lemma serviceNormalizedLinks_valid (links : List String) :
    ∀ x ∈ serviceNormalizedLinks links, is_valid_github_url x = true := by
  intro x hx
  unfold serviceNormalizedLinks at hx
  rcases List.mem_filterMap.mp hx with ⟨l, _, hfl⟩
  split at hfl
  · rename_i hcond
    rw [Bool.and_eq_true] at hcond
    rw [Option.some.injEq] at hfl
    rw [← hfl]
    exact hcond.2
  · cases hfl

/-- Every link the service pipeline returns passed the validator. -/
lemma service_extract_post_valid (links : List String) :
    ∀ url ∈ service_extract_post links, is_valid_github_url url = true := by
  intro url hurl
  unfold service_extract_post at hurl
  rcases List.mem_append.mp hurl with h | h
  · exact serviceNormalizedLinks_valid links url (srvPassA_subset _ _ _ h)
  · exact serviceNormalizedLinks_valid links url (srvPassB_subset _ _ _ h)

/-- Facts the validator certifies about the first path segment: not
reserved, hyphen-and-alphanumeric characters only, no hyphen at either
end, no double hyphen. -/
lemma is_valid_github_url_rules (url : String) (h : is_valid_github_url url = true) :
    serviceReserved.contains (strLower (pathUsername url)) = false
    ∧ (pathUsername url).data.all isGhNameChar = true
    ∧ List.isPrefixOf ['-'] (pathUsername url).data = false
    ∧ List.isPrefixOf ['-'] (pathUsername url).data.reverse = false
    ∧ hasSub ['-', '-'] (pathUsername url).data = false := by
  unfold is_valid_github_url at h
  split at h
  · cases h
  · split at h
    · cases h
    · split at h
      · cases h
      · split at h
        · cases h
        · split at h
          · cases h
          · split at h
            · cases h
            · split at h
              · cases h
              · split at h
                · cases h
                · rename_i hres hall hpre hsub
                  simp only [Bool.not_eq_true, Bool.or_eq_true, not_or,
                    Bool.not_eq_true'] at hres hall hpre hsub
                  exact ⟨hres, Bool.ne_false_iff.mp hall, hpre.1, hpre.2, hsub⟩

/-- Counterexample to C3 as stated: the utils extractor, the one the
analyze endpoint uses, returns github.com/admin as a candidate because
admin is not in its reserved set. -/
theorem extract_reserved_admin_counterexample :
    extract_github_links "github.com/admin" = ["https://github.com/admin"]
    ∧ extract_github_links "github.com/admin" ≠ [] := by
  constructor
  · decide
  · decide

/-- C3 (amended): each extractor filters against its own reserved set.
The utils extractor never returns a username whose lowercase form lies
in its reserved list (which lacks admin and api), and the service
pipeline only returns links accepted by its validator, whose reserved
set does include admin; in particular the admin URL is rejected there. -/
theorem extract_reserved_filtering :
    (∀ text url, url ∈ extract_github_links text →
        ∃ u : String, url = "https://github.com/" ++ u ∧
          reservedGithub.contains (strLower u) = false)
    ∧ (∀ links url, url ∈ service_extract_post links → is_valid_github_url url = true)
    ∧ (∀ url, is_valid_github_url url = true →
        serviceReserved.contains (strLower (pathUsername url)) = false)
    ∧ is_valid_github_url "https://github.com/admin" = false
    ∧ service_extract_post ["github.com/admin"] = [] := by
  refine ⟨?_, ?_, ?_, by decide, by decide⟩
  · intro text url h
    rcases extract_github_links_mem text url h with ⟨u, h1, _, _, h4⟩
    exact ⟨u, h1, h4⟩
  · exact service_extract_post_valid
  · intro url h
    exact (is_valid_github_url_rules url h).1

/-- Witness for C3 (amended) at concrete inputs. -/
theorem extract_reserved_filtering_witness :
    ("https://github.com/octocat" ∈ extract_github_links "see github.com/octocat")
    ∧ (∃ u : String, "https://github.com/octocat" = "https://github.com/" ++ u ∧
        reservedGithub.contains (strLower u) = false)
    ∧ ("https://github.com/octocat" ∈ service_extract_post ["github.com/octocat"])
    ∧ is_valid_github_url "https://github.com/octocat" = true
    ∧ serviceReserved.contains (strLower (pathUsername "https://github.com/octocat")) = false := by
  have hmem : "https://github.com/octocat" ∈ extract_github_links "see github.com/octocat" := by
    decide
  have hmem2 : "https://github.com/octocat" ∈ service_extract_post ["github.com/octocat"] := by
    decide
  have hv : is_valid_github_url "https://github.com/octocat" = true :=
    extract_reserved_filtering.2.1 _ _ hmem2
  exact ⟨hmem, extract_reserved_filtering.1 _ _ hmem, hmem2, hv,
    extract_reserved_filtering.2.2.1 _ hv⟩

/-- Counterexample to C4 as stated: the utils extractor has no
hyphen-position or double-hyphen rule, so both malformed usernames come
back (with the trailing hyphen of the first stripped as punctuation). -/
theorem extract_hyphen_rules_counterexample :
    extract_github_links "github.com/-bad- or github.com/a--b"
      = ["https://github.com/-bad", "https://github.com/a--b"]
    ∧ extract_github_links "github.com/-bad- or github.com/a--b" ≠ [] := by
  constructor
  · decide
  · decide

/-- C4 (amended): the utils extractor enforces only the length and
character-class checks (dots and underscores allowed, hyphens anywhere),
while the service validator enforces the full platform naming rules:
letters, digits and hyphens only, no hyphen at either end, no double
hyphen; in particular it rejects both example URLs, and the service
pipeline drops them. -/
theorem extract_username_validation :
    (∀ text url, url ∈ extract_github_links text →
        ∃ u : String, url = "https://github.com/" ++ u ∧ 2 < u.length ∧
          (∀ c ∈ u.data, isClassChar c = true))
    ∧ (∀ url, is_valid_github_url url = true →
        (pathUsername url).data.all isGhNameChar = true
        ∧ List.isPrefixOf ['-'] (pathUsername url).data = false
        ∧ List.isPrefixOf ['-'] (pathUsername url).data.reverse = false
        ∧ hasSub ['-', '-'] (pathUsername url).data = false)
    ∧ is_valid_github_url "https://github.com/-bad" = false
    ∧ is_valid_github_url "https://github.com/a--b" = false
    ∧ service_extract_post ["github.com/-bad-", "github.com/a--b"] = [] := by
  refine ⟨?_, ?_, by decide, by decide, by decide⟩
  · intro text url h
    rcases extract_github_links_mem text url h with ⟨u, h1, h2, h3, _⟩
    exact ⟨u, h1, h2, h3⟩
  · intro url h
    exact (is_valid_github_url_rules url h).2

/-- Witness for C4 (amended) at concrete inputs. -/
theorem extract_username_validation_witness :
    ("https://github.com/good-user" ∈ extract_github_links "github.com/good-user")
    ∧ (∃ u : String, "https://github.com/good-user" = "https://github.com/" ++ u ∧
        2 < u.length ∧ (∀ c ∈ u.data, isClassChar c = true))
    ∧ is_valid_github_url "https://github.com/good-user" = true
    ∧ (pathUsername "https://github.com/good-user").data.all isGhNameChar = true := by
  have hmem : "https://github.com/good-user" ∈ extract_github_links "github.com/good-user" := by
    decide
  have hv : is_valid_github_url "https://github.com/good-user" = true := by decide
  exact ⟨hmem, extract_username_validation.1 _ _ hmem, hv,
    (extract_username_validation.2.1 _ hv).1⟩

/-- Counterexample to C6 as stated: a text containing the three alice
surface forms and additionally a bob mention yields two entries, so the
universal claim over all texts containing the three forms fails. -/
theorem extract_surface_forms_counterexample :
    hasSub "https://github.com/alice".data
        "https://github.com/alice github.com/alice GitHub: alice github.com/bob".data = true
    ∧ hasSub "github.com/alice".data
        "https://github.com/alice github.com/alice GitHub: alice github.com/bob".data = true
    ∧ hasSub "GitHub: alice".data
        "https://github.com/alice github.com/alice GitHub: alice github.com/bob".data = true
    ∧ extract_github_links "https://github.com/alice github.com/alice GitHub: alice github.com/bob"
        ≠ ["https://github.com/alice"]
    ∧ extract_github_links "https://github.com/alice github.com/alice GitHub: alice github.com/bob"
        = ["https://github.com/alice", "https://github.com/bob"] := by
  exact ⟨by decide, by decide, by decide, by decide, by decide⟩

/-- C6 (amended): on the text consisting of the three alice surface
forms and no other candidate mention, all three pattern families hit
the same username and deduplication collapses them to the single
canonical profile URL. -/
theorem extract_surface_forms_dedup :
    hasSub "https://github.com/alice".data
        "https://github.com/alice github.com/alice GitHub: alice".data = true
    ∧ hasSub "github.com/alice".data
        "https://github.com/alice github.com/alice GitHub: alice".data = true
    ∧ hasSub "GitHub: alice".data
        "https://github.com/alice github.com/alice GitHub: alice".data = true
    ∧ extract_github_links "https://github.com/alice github.com/alice GitHub: alice"
        = ["https://github.com/alice"] := by
  exact ⟨by decide, by decide, by decide, by decide⟩

lemma listLe_total : ∀ a b : List Char, listLe a b = true ∨ listLe b a = true := by
  intro a
  induction a with
  | nil => intro b; left; rfl
  | cons x xs ih =>
    intro b
    cases b with
    | nil => right; rfl
    | cons y ys =>
      unfold listLe
      by_cases h1 : x.toNat < y.toNat
      · left; rw [if_pos h1]
      · by_cases h2 : y.toNat < x.toNat
        · right; rw [if_pos h2]
        · rcases ih ys with h | h
          · left; rw [if_neg h1, if_neg h2]; exact h
          · right; rw [if_neg h2, if_neg h1]; exact h

lemma listLe_trans : ∀ a b c : List Char,
    listLe a b = true → listLe b c = true → listLe a c = true := by
  intro a
  induction a with
  | nil => intro b c _ _; rfl
  | cons x xs ih =>
    intro b c hab hbc
    cases b with
    | nil => simp [listLe] at hab
    | cons y ys =>
      cases c with
      | nil => simp [listLe] at hbc
      | cons z zs =>
        unfold listLe at hab hbc ⊢
        by_cases hxz : x.toNat < z.toNat
        · rw [if_pos hxz]
        · rw [if_neg hxz]
          by_cases hxy : x.toNat < y.toNat
          · rw [if_pos hxy] at hab
            exfalso
            by_cases hyz : y.toNat < z.toNat
            · omega
            · rw [if_neg hyz] at hbc
              by_cases hzy : z.toNat < y.toNat
              · rw [if_pos hzy] at hbc; cases hbc
              · omega
          · rw [if_neg hxy] at hab
            by_cases hyx : y.toNat < x.toNat
            · rw [if_pos hyx] at hab; cases hab
            · rw [if_neg hyx] at hab
              by_cases hyz : y.toNat < z.toNat
              · exfalso; omega
              · rw [if_neg hyz] at hbc
                by_cases hzy : z.toNat < y.toNat
                · rw [if_pos hzy] at hbc; cases hbc
                · rw [if_neg hzy] at hbc
                  by_cases hzx : z.toNat < x.toNat
                  · exfalso; omega
                  · rw [if_neg hzx]
                    exact ih ys zs hab hbc

instance : IsTotal String (fun a b => strLe a b = true) :=
  ⟨fun a b => listLe_total a.data b.data⟩

instance : IsTrans String (fun a b => strLe a b = true) :=
  ⟨fun a b c => listLe_trans a.data b.data c.data⟩

/-- Username characters of a canonical profile URL: everything after the
nineteen characters of the canonical prefix. -/
def urlUser (url : String) : List Char := url.data.drop 19

lemma string_data_inj {a b : String} (h : a.data = b.data) : a = b := by
  cases a; cases b
  exact congrArg String.mk h

lemma urlUser_append (u : String) : urlUser ("https://github.com/" ++ u) = u.data := by
  show ("https://github.com/" ++ u).data.drop 19 = u.data
  rw [show ("https://github.com/" ++ u).data = "https://github.com/".data ++ u.data from rfl]
  rw [show (19 : Nat) = "https://github.com/".data.length from rfl]
  exact List.drop_left _ _

/-- Counterexample to C7 as stated: the extractor returns the canonical
URLs in sorted order, not in first-seen order. -/
theorem extract_order_counterexample :
    extract_github_links "github.com/zzz and github.com/aaa"
      = ["https://github.com/aaa", "https://github.com/zzz"]
    ∧ extract_github_links "github.com/zzz and github.com/aaa"
      ≠ ["https://github.com/zzz", "https://github.com/aaa"] := by
  exact ⟨by decide, by decide⟩

/-- C7 (amended): one entry per unique username, the canonical form is
always the profile root with any repository suffix dropped, and the
extractor returns the URLs in code-point sorted order rather than
first-seen order; the analyze aggregation then unions text-derived
before PDF-derived candidates keeping the first occurrence per URL. -/
theorem extract_dedup_and_order :
    (∀ text, (extract_github_links text).Pairwise (fun a b => urlUser a ≠ urlUser b))
    ∧ (∀ text, (extract_github_links text).Sorted (fun a b => strLe a b = true))
    ∧ extract_github_links "See github.com/alice and github.com/alice/project1"
        = ["https://github.com/alice"]
    ∧ (∀ textLinks pdfLinks : List String,
        union_text_first textLinks pdfLinks = dedupFirst (textLinks ++ pdfLinks)
        ∧ List.Sublist (union_text_first textLinks pdfLinks) (textLinks ++ pdfLinks)
        ∧ (union_text_first textLinks pdfLinks).Nodup)
    ∧ (∀ (a : String) (l : List String),
        dedupFirst (a :: l) = a :: dedupFirst (List.filter (fun x => !(x == a)) l)) := by
  refine ⟨?_, ?_, by decide, ?_, dedupFirst_cons⟩
  · intro text
    unfold extract_github_links
    split
    · exact List.Pairwise.nil
    · have hperm := List.perm_insertionSort (fun a b => strLe a b = true)
        (dedupFirst (List.map (fun u => "https://github.com/" ++ u)
          (dedupFirst (List.map (fun m => String.mk m) (goodGithubNames text.data)))))
      refine (hperm.pairwise_iff ?_).mpr ?_
      · intro a b h
        exact h.symm
      · apply List.Pairwise.sublist (dedupFirstAux_sublist _ _)
        rw [List.pairwise_map]
        refine List.Pairwise.imp ?_ (dedupFirstAux_nodup _ _)
        intro u v huv heq
        apply huv
        apply string_data_inj
        rw [← urlUser_append u, ← urlUser_append v, heq]
  · intro text
    unfold extract_github_links
    split
    · exact List.sorted_nil
    · exact List.sorted_insertionSort _ _
  · intro tl pl
    exact ⟨rfl, dedupFirstAux_sublist _ _, dedupFirstAux_nodup _ _⟩
